import Mathlib

/-!
Shallow embedding of the `tasq` pipeline engine (`src/Tasq.ts`, the most complete
variant: the one with the `nth` run counter and the `blocking` option).

The engine's mutable instance fields become the record `TasqState`.  Stage
callbacks, which in the source are arbitrary (possibly async) functions that may
mutate the engine through its public interface, are embedded as pure functions
that receive the callback arguments (`nth`, `data`) and the current state, and
return a list of engine operations (`add` / `clear` — the public mutators) to
apply, together with an outcome: either a thrown exception (`Except.error`) or
the returned `TasqCallbackResult | void` value (`Except.ok (Option ...)`).
The item type and the forwarded `data` payload type are identified as `T`;
exceptions are values of a type `E`.

Runs are driven by an explicit fuel parameter (the source's drain loop can run
forever when a stage keeps appending items); `none` models divergence.  Every
observable callback invocation (stage, done, error, the `console.error` log in
`finish`) is recorded in an event trace.
-/

set_option linter.unusedVariables false
set_option linter.unnecessarySeqFocus false

/-- Result value returned by a stage callback (`TasqCallbackResult` in the
source): optional forwarded `data` payload and the `break` flag (named `brk`
here because `break` is reserved). -/
structure TasqCallbackResult (T : Type) where
  data : Option T := none
  brk : Bool := false
  deriving Repr, DecidableEq, Inhabited

/-- Payload of the done callback (`TasqDoneResult` in the source). -/
structure TasqDoneResult (T : Type) where
  nth : Nat
  items : List T
  deriving Repr, DecidableEq

/-- Value resolved by `runAsync` (`TasqRunResult`): the done payload plus the
`error` property, assigned only on the error path. -/
structure TasqRunResult (T E : Type) where
  nth : Nat
  items : List T
  error : Option E := none
  deriving Repr, DecidableEq

/-- Payload of the error callback (`TasqErrorResult`).  The source interface
declares an optional `error` property; the embedded `finally` mirrors the
source, which never assigns it in this variant (field stays `none`). -/
structure TasqErrorResult (T E : Type) where
  nth : Nat
  items : List T
  error : Option E := none
  index : Int
  callbackIndex : Nat
  deriving Repr, DecidableEq

/-- The engine's mutable instance fields plus the frozen `blocking` option. -/
structure TasqState (T : Type) where
  nth : Nat := 0
  index : Nat := 0
  callbackIndex : Nat := 0
  running : Bool := false
  current : Option T := none
  items : List T := []
  blocking : Bool := true
  deriving Repr, DecidableEq

/-- Engine operations a callback may perform on the task instance it receives:
the public mutators that change the backlog. -/
inductive TasqOp (T : Type) where
  | add (xs : List T)
  | clear
  deriving Repr, DecidableEq

deriving instance DecidableEq for Except

/-- Observable events of a run: stage invocations (with the stage index, run
number, `data` argument and outcome), backlog mutations performed by callbacks,
done/error callback invocations, and the `console.error` log emitted when a
done/error callback itself throws (tagged with the `label` from the source's
message). -/
inductive Event (T E : Type) where
  | stage (k : Nat) (nth : Nat) (data : Option T)
      (out : Except E (Option (TasqCallbackResult T)))
  | added (xs : List T)
  | cleared (xs : List T)
  | doneCall (r : TasqDoneResult T)
  | errorCall (r : TasqErrorResult T E)
  | log (label : String) (e : E)
  deriving Repr, DecidableEq

/-- A stage callback: sees `(nth, data)` and the engine state, performs a list
of engine operations, and either throws or returns `TasqCallbackResult | void`. -/
def TasqCallback (T E : Type) : Type :=
  Nat → Option T → TasqState T → List (TasqOp T) × Except E (Option (TasqCallbackResult T))

/-- A done callback: sees the done payload and the engine, performs operations,
and optionally throws. -/
def TasqDoneCallback (T E : Type) : Type :=
  TasqDoneResult T → TasqState T → List (TasqOp T) × Option E

/-- An error callback: sees the error payload and the engine, performs
operations, and optionally throws. -/
def TasqErrorCallback (T E : Type) : Type :=
  TasqErrorResult T E → TasqState T → List (TasqOp T) × Option E

namespace Tasq

variable {T E : Type}

/-- `add(...items)`: appends the items to the backlog. -/
def add (s : TasqState T) (xs : List T) : TasqState T :=
  { s with items := s.items ++ xs }

/-- `_clear()`: resets the backlog cursor to 0, splices out the whole backlog
(returning the removed items), and resets the current-item slot only when no
run is active. -/
def _clear (s : TasqState T) : TasqState T × List T :=
  let removed := s.items
  let s1 : TasqState T := { s with index := 0, items := [] }
  (if s1.running then s1 else { s1 with current := none }, removed)

/-- `clear()`: public wrapper around `_clear`, discarding the removed items. -/
def clear (s : TasqState T) : TasqState T :=
  (_clear s).1

/-- Interpret the operations performed by a callback, in order, recording each
as an event. -/
def applyOps : List (TasqOp T) → TasqState T → TasqState T × List (Event T E)
  | [], s => (s, [])
  | TasqOp.add xs :: rest, s =>
      let out := applyOps rest (add s xs)
      (out.1, Event.added xs :: out.2)
  | TasqOp.clear :: rest, s =>
      let c := _clear s
      let out := applyOps rest c.1
      (out.1, Event.cleared c.2 :: out.2)

/-- The source's inner stage-0 loop:
`while (callbackIndex === 0 && this.index < this.items.length)` — poll the next
backlog item, advance the backlog cursor, record it as current, invoke stage 0
with it, and overwrite the working result with the returned value (`{}` when
the callback returned nothing).  Note the loop condition does not consult the
working result's `break` flag.  Fuel bounds the number of iterations; `none`
models divergence. -/
def drain0 (cb : TasqCallback T E) (nthv : Nat) :
    Nat → TasqCallbackResult T → TasqState T →
    Option (TasqState T × Except E (TasqCallbackResult T) × List (Event T E))
  | 0, r, s =>
      if s.items.length ≤ s.index then some (s, Except.ok r, []) else none
  | fuel + 1, r, s =>
      if h : s.index < s.items.length then
        let item := s.items.get ⟨s.index, h⟩
        let s1 : TasqState T := { s with index := s.index + 1, current := some item }
        let co := cb nthv (some item) s1
        let ap := applyOps co.1 s1
        let ev : Event T E := Event.stage 0 nthv (some item) co.2
        match co.2 with
        | Except.error e => some (ap.1, Except.error e, ev :: ap.2)
        | Except.ok ro =>
            match drain0 cb nthv fuel (ro.getD {}) ap.1 with
            | none => none
            | some (s3, res, evs) => some (s3, res, ev :: (ap.2 ++ evs))
      else some (s, Except.ok r, [])

/-- The source's outer drain loop:
`while (!result.break && this.callbackIndex < this.callbacks.length)` — take the
stage at the stage cursor, advance the cursor, run the stage-0 inner loop for
stage 0, and for a later stage (when the working result has no `break`) invoke
it with the previous result's `data`.  Fuel bounds the iterations. -/
def runLoop (cbs : List (TasqCallback T E)) (nthv : Nat) :
    Nat → TasqCallbackResult T → TasqState T →
    Option (TasqState T × Except E (TasqCallbackResult T) × List (Event T E))
  | 0, r, s =>
      if r.brk then some (s, Except.ok r, [])
      else if cbs.length ≤ s.callbackIndex then some (s, Except.ok r, [])
      else none
  | fuel + 1, r, s =>
      if r.brk then some (s, Except.ok r, [])
      else if h : s.callbackIndex < cbs.length then
        let k := s.callbackIndex
        let cb := cbs.get ⟨k, h⟩
        let s1 : TasqState T := { s with callbackIndex := k + 1 }
        if k = 0 then
          match drain0 cb nthv fuel r s1 with
          | none => none
          | some (s2, Except.error e, evs) => some (s2, Except.error e, evs)
          | some (s2, Except.ok r2, evs) =>
              match runLoop cbs nthv fuel r2 s2 with
              | none => none
              | some (s3, out, evs2) => some (s3, out, evs ++ evs2)
        else
          let co := cb nthv r.data s1
          let ap := applyOps co.1 s1
          let ev : Event T E := Event.stage k nthv r.data co.2
          match co.2 with
          | Except.error e => some (ap.1, Except.error e, ev :: ap.2)
          | Except.ok ro =>
              match runLoop cbs nthv fuel (ro.getD {}) ap.1 with
              | none => none
              | some (s3, out2, evs2) => some (s3, out2, ev :: (ap.2 ++ evs2))
      else some (s, Except.ok r, [])

/-- `finish(doneResult, errorResult, didError)`: invoke the error callback when
`didError`, otherwise the done callback (each only if registered); any exception
thrown by that callback is caught and logged with the label `"error"` or
`"done"`. -/
def finish (onDone : Option (TasqDoneCallback T E))
    (onError : Option (TasqErrorCallback T E))
    (doneResult : TasqDoneResult T) (errorResult : TasqErrorResult T E)
    (didError : Bool) (s : TasqState T) : TasqState T × List (Event T E) :=
  if didError then
    match onError with
    | none => (s, [])
    | some h =>
        let ho := h errorResult s
        let ap := applyOps ho.1 s
        (ap.1, Event.errorCall errorResult :: ap.2 ++
          (match ho.2 with
           | none => []
           | some ex => [Event.log "error" ex]))
  else
    match onDone with
    | none => (s, [])
    | some h =>
        let ho := h doneResult s
        let ap := applyOps ho.1 s
        (ap.1, Event.doneCall doneResult :: ap.2 ++
          (match ho.2 with
           | none => []
           | some ex => [Event.log "done" ex]))

/-- `finally(nth, error?, didError)`: reset the run counter to 0 and the running
flag, snapshot `index - 1` and the stage cursor, clear the backlog capturing the
removed items, build the done/run/error payloads (the error payload's `error`
property is never assigned in this variant of the source) and call `finish`. -/
def finalize (onDone : Option (TasqDoneCallback T E))
    (onError : Option (TasqErrorCallback T E))
    (nthv : Nat) (error : Option E) (didError : Bool) (s : TasqState T) :
    TasqState T × TasqRunResult T E × List (Event T E) :=
  let s1 : TasqState T := { s with nth := 0, running := false }
  let index : Int := (s1.index : Int) - 1
  let cbIdx := s1.callbackIndex
  let c := _clear s1
  let doneResult : TasqDoneResult T := { nth := nthv, items := c.2 }
  let runResult : TasqRunResult T E :=
    { nth := nthv, items := c.2, error := if didError then error else none }
  let errorResult : TasqErrorResult T E :=
    { nth := nthv, items := c.2, error := none, index := index, callbackIndex := cbIdx }
  let f := finish onDone onError doneResult errorResult didError c.1
  (f.1, runResult, f.2)

/-- Body of an accepted run, starting from the state with the stage cursor
already reset: assign `nth := this.nth + 1`, set the running flag, initialize
the working result's `break` flag to whether the backlog cursor is at or past
the backlog length, run the drain loop, and finalize on either the normal or
the exceptional path. -/
def runBody (fuel : Nat) (cbs : List (TasqCallback T E))
    (onDone : Option (TasqDoneCallback T E))
    (onError : Option (TasqErrorCallback T E)) (s0 : TasqState T) :
    Option (TasqState T × Option (TasqRunResult T E) × List (Event T E)) :=
  let nthv := s0.nth + 1
  let s1 : TasqState T := { s0 with nth := nthv, running := true }
  let r0 : TasqCallbackResult T := { brk := decide (s1.items.length ≤ s1.index) }
  match runLoop cbs nthv fuel r0 s1 with
  | none => none
  | some (s2, Except.ok _, evs) =>
      let f := finalize onDone onError nthv none false s2
      some (f.1, some f.2.1, evs ++ f.2.2)
  | some (s2, Except.error e, evs) =>
      let f := finalize onDone onError nthv (some e) true s2
      some (f.1, some f.2.1, evs ++ f.2.2)

/-- `runAsync()`: reset the stage cursor to 0, then drop the call (resolving
with no result) when a run is active and the engine is blocking; otherwise run
the body.  The outer `none` models a run that never terminates (fuel
exhaustion); the inner `Option` is the resolved value (`undefined` for a
dropped call). -/
def runAsync (fuel : Nat) (cbs : List (TasqCallback T E))
    (onDone : Option (TasqDoneCallback T E))
    (onError : Option (TasqErrorCallback T E)) (s : TasqState T) :
    Option (TasqState T × Option (TasqRunResult T E) × List (Event T E)) :=
  let s0 : TasqState T := { s with callbackIndex := 0 }
  if s0.running && s0.blocking then some (s0, none, [])
  else runBody fuel cbs onDone onError s0

/-- `run()`: fire-and-forget wrapper: same effects as `runAsync`, result
discarded. -/
def run (fuel : Nat) (cbs : List (TasqCallback T E))
    (onDone : Option (TasqDoneCallback T E))
    (onError : Option (TasqErrorCallback T E)) (s : TasqState T) :
    Option (TasqState T × List (Event T E)) :=
  (runAsync fuel cbs onDone onError s).map (fun o => (o.1, o.2.2))

/-- Number of stage-invocation events in a trace. -/
def countStage : List (Event T E) → Nat
  | [] => 0
  | Event.stage _ _ _ _ :: tl => countStage tl + 1
  | _ :: tl => countStage tl

/-- Number of done-callback invocations in a trace. -/
def countDone : List (Event T E) → Nat
  | [] => 0
  | Event.doneCall _ :: tl => countDone tl + 1
  | _ :: tl => countDone tl

/-- Number of error-callback invocations in a trace. -/
def countError : List (Event T E) → Nat
  | [] => 0
  | Event.errorCall _ :: tl => countError tl + 1
  | _ :: tl => countError tl

/-- Items appended to the backlog over a trace, in order. -/
def addsOf : List (Event T E) → List T
  | [] => []
  | Event.added xs :: tl => xs ++ addsOf tl
  | _ :: tl => addsOf tl

/-- A stage callback that only ever appends to the backlog. -/
def AppendOnly (cb : TasqCallback T E) : Prop :=
  ∀ n d s, ∀ op ∈ (cb n d s).1, ∃ xs, op = TasqOp.add xs

/-- A stage callback that performs no engine operations at all. -/
def OpFree (cb : TasqCallback T E) : Prop :=
  ∀ n d s, (cb n d s).1 = []

/-- A stage callback that never throws. -/
def NoThrow (cb : TasqCallback T E) : Prop :=
  ∀ n d s, ∃ ro, (cb n d s).2 = Except.ok ro

end Tasq

namespace Tasq

variable {T E : Type}

/-! ### Trace bookkeeping lemmas -/

theorem addsOf_append (a b : List (Event T E)) :
    addsOf (a ++ b) = addsOf a ++ addsOf b := by
  induction a with
  | nil => rfl
  | cons hd tl ih => cases hd <;> simp [addsOf, ih]

theorem countStage_append (a b : List (Event T E)) :
    countStage (a ++ b) = countStage a + countStage b := by
  induction a with
  | nil => simp [countStage]
  | cons hd tl ih => cases hd <;> simp [countStage, ih] <;> omega

theorem countDone_append (a b : List (Event T E)) :
    countDone (a ++ b) = countDone a + countDone b := by
  induction a with
  | nil => simp [countDone]
  | cons hd tl ih => cases hd <;> simp [countDone, ih] <;> omega

theorem countError_append (a b : List (Event T E)) :
    countError (a ++ b) = countError a + countError b := by
  induction a with
  | nil => simp [countError]
  | cons hd tl ih => cases hd <;> simp [countError, ih] <;> omega

/-! ### `applyOps` invariants: engine operations touch only the backlog fields -/

theorem _clear_ctl (s : TasqState T) :
    ((_clear s).1).callbackIndex = s.callbackIndex ∧ ((_clear s).1).running = s.running ∧
    ((_clear s).1).nth = s.nth ∧ ((_clear s).1).blocking = s.blocking := by
  simp only [_clear]
  split <;> exact ⟨rfl, rfl, rfl, rfl⟩

theorem applyOps_ctl (ops : List (TasqOp T)) (s : TasqState T) :
    ((applyOps (E := E) ops s).1).callbackIndex = s.callbackIndex ∧
    ((applyOps (E := E) ops s).1).running = s.running ∧
    ((applyOps (E := E) ops s).1).nth = s.nth ∧
    ((applyOps (E := E) ops s).1).blocking = s.blocking := by
  induction ops generalizing s with
  | nil => exact ⟨rfl, rfl, rfl, rfl⟩
  | cons op tl ih =>
    cases op with
    | add xs =>
      have h := ih (add s xs)
      simpa [applyOps, add] using h
    | clear =>
      have h := ih (_clear s).1
      have hc := _clear_ctl s
      simp only [applyOps]
      exact ⟨h.1.trans hc.1, h.2.1.trans hc.2.1, h.2.2.1.trans hc.2.2.1,
        h.2.2.2.trans hc.2.2.2⟩

theorem applyOps_countStage (ops : List (TasqOp T)) (s : TasqState T) :
    countStage (E := E) (applyOps ops s).2 = 0 := by
  induction ops generalizing s with
  | nil => rfl
  | cons op tl ih => cases op <;> simp [applyOps, countStage, ih]

theorem applyOps_countDone (ops : List (TasqOp T)) (s : TasqState T) :
    countDone (E := E) (applyOps ops s).2 = 0 := by
  induction ops generalizing s with
  | nil => rfl
  | cons op tl ih => cases op <;> simp [applyOps, countDone, ih]

theorem applyOps_countError (ops : List (TasqOp T)) (s : TasqState T) :
    countError (E := E) (applyOps ops s).2 = 0 := by
  induction ops generalizing s with
  | nil => rfl
  | cons op tl ih => cases op <;> simp [applyOps, countError, ih]

theorem applyOps_addOnly (ops : List (TasqOp T)) (s : TasqState T)
    (hops : ∀ op ∈ ops, ∃ xs, op = TasqOp.add xs) :
    (applyOps (E := E) ops s).1 =
      { s with items := s.items ++ addsOf (applyOps (E := E) ops s).2 } := by
  induction ops generalizing s with
  | nil => simp [applyOps, addsOf]
  | cons op tl ih =>
    obtain ⟨xs, rfl⟩ := hops op (List.mem_cons_self _ _)
    have htl : ∀ op ∈ tl, ∃ xs, op = TasqOp.add xs :=
      fun o ho => hops o (List.mem_cons_of_mem _ ho)
    simp only [applyOps, addsOf]
    rw [ih (add s xs) htl]
    simp [add, List.append_assoc]

end Tasq

namespace Tasq

variable {T E : Type}

/-! ### Loop invariants under append-only, non-throwing stage callbacks -/

theorem drain0_ok_addOnly (cb : TasqCallback T E) (nthv : Nat)
    (hA : AppendOnly cb) (hN : NoThrow cb) (fuel : Nat) :
    ∀ r s s2 out evs, drain0 cb nthv fuel r s = some (s2, out, evs) →
      (∃ r2, out = Except.ok r2) ∧ s2.items = s.items ++ addsOf evs ∧
      countDone evs = 0 ∧ countError evs = 0 := by
  induction fuel with
  | zero =>
    intro r s s2 out evs h
    simp only [drain0] at h
    split at h
    · simp only [Option.some.injEq, Prod.mk.injEq] at h
      obtain ⟨rfl, rfl, rfl⟩ := h
      exact ⟨⟨r, rfl⟩, by simp [addsOf], rfl, rfl⟩
    · exact Option.noConfusion h
  | succ fuel ih =>
    intro r s s2 out evs h
    simp only [drain0] at h
    split at h
    case isTrue hidx =>
      split at h
      case h_1 e heq =>
        obtain ⟨ro, hro⟩ := hN nthv (some (s.items.get ⟨s.index, hidx⟩))
          { s with index := s.index + 1, current := some (s.items.get ⟨s.index, hidx⟩) }
        exact Except.noConfusion (hro.symm.trans heq)
      case h_2 ro heq =>
        rw [heq] at h
        split at h
        case h_1 => exact Option.noConfusion h
        case h_2 s3 res evs' hrec =>
          simp only [Option.some.injEq, Prod.mk.injEq] at h
          obtain ⟨rfl, rfl, rfl⟩ := h
          obtain ⟨hok, hitems, hcd, hce⟩ := ih _ _ _ _ _ hrec
          refine ⟨hok, ?_, ?_, ?_⟩
          · rw [hitems, applyOps_addOnly _ _ (hA nthv _ _)]
            simp [addsOf, addsOf_append, List.append_assoc]
          · simp [countDone, countDone_append, applyOps_countDone, hcd]
          · simp [countError, countError_append, applyOps_countError, hce]
    case isFalse hidx =>
      simp only [Option.some.injEq, Prod.mk.injEq] at h
      obtain ⟨rfl, rfl, rfl⟩ := h
      exact ⟨⟨r, rfl⟩, by simp [addsOf], rfl, rfl⟩

end Tasq

namespace Tasq

variable {T E : Type}

theorem runLoop_ok_addOnly (cbs : List (TasqCallback T E)) (nthv : Nat)
    (hA : ∀ cb ∈ cbs, AppendOnly cb ∧ NoThrow cb) (fuel : Nat) :
    ∀ r s s2 out evs, runLoop cbs nthv fuel r s = some (s2, out, evs) →
      (∃ r2, out = Except.ok r2) ∧ s2.items = s.items ++ addsOf evs ∧
      countDone evs = 0 ∧ countError evs = 0 := by
  induction fuel with
  | zero =>
    intro r s s2 out evs h
    simp only [runLoop] at h
    split at h
    · simp only [Option.some.injEq, Prod.mk.injEq] at h
      obtain ⟨rfl, rfl, rfl⟩ := h
      exact ⟨⟨r, rfl⟩, by simp [addsOf], rfl, rfl⟩
    · split at h
      · simp only [Option.some.injEq, Prod.mk.injEq] at h
        obtain ⟨rfl, rfl, rfl⟩ := h
        exact ⟨⟨r, rfl⟩, by simp [addsOf], rfl, rfl⟩
      · exact Option.noConfusion h
  | succ fuel ih =>
    intro r s s2 out evs h
    simp only [runLoop] at h
    split at h
    · simp only [Option.some.injEq, Prod.mk.injEq] at h
      obtain ⟨rfl, rfl, rfl⟩ := h
      exact ⟨⟨r, rfl⟩, by simp [addsOf], rfl, rfl⟩
    · split at h
      case isTrue hk =>
        have hmem := List.get_mem cbs s.callbackIndex hk
        split at h
        case isTrue hk0 =>
          split at h
          case h_1 => exact Option.noConfusion h
          case h_2 s2' e evs' hdrain =>
            obtain ⟨⟨r2, hr2⟩, _, _, _⟩ :=
              drain0_ok_addOnly _ nthv (hA _ hmem).1 (hA _ hmem).2 fuel _ _ _ _ _ hdrain
            exact Except.noConfusion hr2
          case h_3 s2' r2 evs' hdrain =>
            obtain ⟨_, hitems', hcd', hce'⟩ :=
              drain0_ok_addOnly _ nthv (hA _ hmem).1 (hA _ hmem).2 fuel _ _ _ _ _ hdrain
            split at h
            case h_1 => exact Option.noConfusion h
            case h_2 s3 out2 evs2 hrec =>
              simp only [Option.some.injEq, Prod.mk.injEq] at h
              obtain ⟨rfl, rfl, rfl⟩ := h
              obtain ⟨hok, hitems, hcd, hce⟩ := ih _ _ _ _ _ hrec
              refine ⟨hok, ?_, ?_, ?_⟩
              · rw [hitems, hitems', addsOf_append]
                simp [List.append_assoc]
              · simp [countDone_append, hcd, hcd']
              · simp [countError_append, hce, hce']
        case isFalse hk0 =>
          split at h
          case h_1 e heq =>
            obtain ⟨ro, hro⟩ := (hA _ hmem).2 nthv r.data
              { s with callbackIndex := s.callbackIndex + 1 }
            exact Except.noConfusion (hro.symm.trans heq)
          case h_2 ro heq =>
            rw [heq] at h
            split at h
            case h_1 => exact Option.noConfusion h
            case h_2 s3 out2 evs2 hrec =>
              simp only [Option.some.injEq, Prod.mk.injEq] at h
              obtain ⟨rfl, rfl, rfl⟩ := h
              obtain ⟨hok, hitems, hcd, hce⟩ := ih _ _ _ _ _ hrec
              refine ⟨hok, ?_, ?_, ?_⟩
              · rw [hitems, applyOps_addOnly _ _ ((hA _ hmem).1 nthv _ _)]
                simp [addsOf, addsOf_append, List.append_assoc]
              · simp [countDone, countDone_append, applyOps_countDone, hcd]
              · simp [countError, countError_append, applyOps_countError, hce]
      case isFalse hk =>
        simp only [Option.some.injEq, Prod.mk.injEq] at h
        obtain ⟨rfl, rfl, rfl⟩ := h
        exact ⟨⟨r, rfl⟩, by simp [addsOf], rfl, rfl⟩

end Tasq

namespace Tasq

variable {T E : Type}

/-- A working result with the break flag set stops the outer loop immediately:
no stage is selected, no event is emitted. -/
theorem runLoop_brk (cbs : List (TasqCallback T E)) (nthv fuel : Nat)
    (r : TasqCallbackResult T) (s : TasqState T) (hbrk : r.brk = true) :
    runLoop cbs nthv fuel r s = some (s, Except.ok r, []) := by
  cases fuel <;> simp [runLoop, hbrk]

/-- Stage 0's inner drain never consults the break flag: with an operation-free,
non-throwing stage callback it polls and processes every remaining backlog
item, whatever results the callback returns. -/
theorem drain0_opFree_count (cb : TasqCallback T E) (nthv : Nat)
    (hO : OpFree cb) (hN : NoThrow cb) (fuel : Nat) :
    ∀ r s, s.items.length - s.index ≤ fuel →
      ∃ s2 r2 evs, drain0 cb nthv fuel r s = some (s2, Except.ok r2, evs) ∧
        countStage evs = s.items.length - s.index ∧ s2.items = s.items ∧
        s2.callbackIndex = s.callbackIndex := by
  induction fuel with
  | zero =>
    intro r s hfuel
    refine ⟨s, r, [], ?_, ?_, rfl, rfl⟩
    · simp only [drain0]
      rw [if_pos (by omega)]
    · simp [countStage]; omega
  | succ fuel ih =>
    intro r s hfuel
    by_cases hidx : s.index < s.items.length
    · obtain ⟨ro, hro⟩ := hN nthv (some (s.items.get ⟨s.index, hidx⟩))
        { s with index := s.index + 1, current := some (s.items.get ⟨s.index, hidx⟩) }
      have hops := hO nthv (some (s.items.get ⟨s.index, hidx⟩))
        { s with index := s.index + 1, current := some (s.items.get ⟨s.index, hidx⟩) }
      obtain ⟨s2, r2, evs, hrec, hcount, hitems, hcb⟩ :=
        ih (ro.getD {}) { s with index := s.index + 1, current := some (s.items.get ⟨s.index, hidx⟩) }
          (by simp; omega)
      refine ⟨s2, r2, Event.stage 0 nthv (some (s.items.get ⟨s.index, hidx⟩)) (Except.ok ro) :: evs,
        ?_, ?_, ?_, ?_⟩
      · simp only [drain0]
        rw [dif_pos hidx, hro]
        simp only [hops, applyOps]
        rw [hrec]
        simp
      · simp only [countStage]
        simp at hcount
        simp [hcount]
        omega
      · simpa using hitems
      · simpa using hcb
    · refine ⟨s, r, [], ?_, ?_, rfl, rfl⟩
      · simp only [drain0]
        rw [dif_neg hidx]
      · simp [countStage]; omega

end Tasq

namespace Tasq

variable {T E : Type}

/-- When the stage-0 drain ends in an exception, the trace ends with the
stage-0 invocation that threw (followed only by that invocation's operation
events), and the stage cursor is unchanged by the drain. -/
theorem drain0_error_shape (cb : TasqCallback T E) (nthv fuel : Nat) :
    ∀ r s s2 e evs, drain0 cb nthv fuel r s = some (s2, Except.error e, evs) →
      (∃ pre d opEvs, evs = pre ++ Event.stage 0 nthv d (Except.error e) :: opEvs ∧
        countStage opEvs = 0) ∧
      s2.callbackIndex = s.callbackIndex := by
  induction fuel with
  | zero =>
    intro r s s2 e evs h
    simp only [drain0] at h
    split at h
    · simp at h
    · exact Option.noConfusion h
  | succ fuel ih =>
    intro r s s2 e evs h
    simp only [drain0] at h
    split at h
    case isTrue hidx =>
      split at h
      case h_1 e' heq =>
        rw [heq] at h
        simp only [Option.some.injEq, Prod.mk.injEq] at h
        obtain ⟨rfl, he, rfl⟩ := h
        obtain rfl : e' = e := by
          cases he
          rfl
        refine ⟨⟨[], some (s.items.get ⟨s.index, hidx⟩),
          (applyOps (cb nthv (some (s.items.get ⟨s.index, hidx⟩))
            { s with index := s.index + 1, current := some (s.items.get ⟨s.index, hidx⟩) }).1
            { s with index := s.index + 1, current := some (s.items.get ⟨s.index, hidx⟩) }).2,
          by simp, applyOps_countStage _ _⟩, ?_⟩
        exact (applyOps_ctl _ _).1
      case h_2 ro heq =>
        rw [heq] at h
        split at h
        case h_1 => exact Option.noConfusion h
        case h_2 s3 res evs' hrec =>
          simp only [Option.some.injEq, Prod.mk.injEq] at h
          obtain ⟨rfl, rfl, rfl⟩ := h
          obtain ⟨⟨pre, d, opEvs, hshape, hcs⟩, hcb⟩ := ih _ _ _ _ _ hrec
          refine ⟨⟨Event.stage 0 nthv (some (s.items.get ⟨s.index, hidx⟩)) (Except.ok ro) ::
            ((applyOps (cb nthv (some (s.items.get ⟨s.index, hidx⟩))
              { s with index := s.index + 1, current := some (s.items.get ⟨s.index, hidx⟩) }).1
              { s with index := s.index + 1, current := some (s.items.get ⟨s.index, hidx⟩) }).2 ++ pre),
            d, opEvs, ?_, hcs⟩, ?_⟩
          · simp [hshape]
          · exact hcb.trans (applyOps_ctl _ _).1
    case isFalse hidx =>
      simp at h

/-- When the outer loop ends in an exception, the trace ends with the stage
invocation that threw (stage `k`, followed only by operation events), and at
finalization the stage cursor reads `k + 1`: the cursor was advanced past the
throwing stage before it was invoked. -/
theorem runLoop_error_shape (cbs : List (TasqCallback T E)) (nthv fuel : Nat) :
    ∀ r s s2 e evs, runLoop cbs nthv fuel r s = some (s2, Except.error e, evs) →
      ∃ pre k d opEvs, evs = pre ++ Event.stage k nthv d (Except.error e) :: opEvs ∧
        countStage opEvs = 0 ∧ s2.callbackIndex = k + 1 := by
  induction fuel with
  | zero =>
    intro r s s2 e evs h
    simp only [runLoop] at h
    split at h
    · simp at h
    · split at h
      · simp at h
      · exact Option.noConfusion h
  | succ fuel ih =>
    intro r s s2 e evs h
    simp only [runLoop] at h
    split at h
    · simp at h
    · split at h
      case isTrue hk =>
        split at h
        case isTrue hk0 =>
          split at h
          case h_1 => exact Option.noConfusion h
          case h_2 s2' e' evs' hdrain =>
            simp only [Option.some.injEq, Prod.mk.injEq] at h
            obtain ⟨rfl, he, rfl⟩ := h
            obtain rfl : e' = e := by
              cases he
              rfl
            obtain ⟨⟨pre, d, opEvs, hshape, hcs⟩, hcb⟩ := drain0_error_shape _ _ _ _ _ _ _ _ hdrain
            refine ⟨pre, 0, d, opEvs, hshape, hcs, ?_⟩
            rw [hcb]
            simp [hk0]
          case h_3 s2' r2 evs' hdrain =>
            split at h
            case h_1 => exact Option.noConfusion h
            case h_2 s3 out2 evs2 hrec =>
              simp only [Option.some.injEq, Prod.mk.injEq] at h
              obtain ⟨rfl, rfl, rfl⟩ := h
              obtain ⟨pre, k, d, opEvs, hshape, hcs, hcb⟩ := ih _ _ _ _ _ hrec
              exact ⟨evs' ++ pre, k, d, opEvs, by simp [hshape], hcs, hcb⟩
        case isFalse hk0 =>
          split at h
          case h_1 e' heq =>
            rw [heq] at h
            simp only [Option.some.injEq, Prod.mk.injEq] at h
            obtain ⟨rfl, he, rfl⟩ := h
            obtain rfl : e' = e := by
              cases he
              rfl
            refine ⟨[], s.callbackIndex, r.data,
              (applyOps (cbs.get ⟨s.callbackIndex, hk⟩ nthv r.data
                { s with callbackIndex := s.callbackIndex + 1 }).1
                { s with callbackIndex := s.callbackIndex + 1 }).2,
              by simp, applyOps_countStage _ _, ?_⟩
            exact (applyOps_ctl _ _).1
          case h_2 ro heq =>
            rw [heq] at h
            split at h
            case h_1 => exact Option.noConfusion h
            case h_2 s3 out2 evs2 hrec =>
              simp only [Option.some.injEq, Prod.mk.injEq] at h
              obtain ⟨rfl, rfl, rfl⟩ := h
              obtain ⟨pre, k, d, opEvs, hshape, hcs, hcb⟩ := ih _ _ _ _ _ hrec
              refine ⟨Event.stage s.callbackIndex nthv r.data (Except.ok ro) ::
                ((applyOps (cbs.get ⟨s.callbackIndex, hk⟩ nthv r.data
                  { s with callbackIndex := s.callbackIndex + 1 }).1
                  { s with callbackIndex := s.callbackIndex + 1 }).2 ++ pre),
                k, d, opEvs, by simp [hshape], hcs, hcb⟩
      case isFalse hk =>
        simp at h

end Tasq

namespace Tasq

variable {T E : Type}

/-! ### Run-level helper lemmas -/

/-- A re-entrant call in blocking mode is dropped after resetting the stage
cursor: unchanged state apart from the cursor, no result, no events. -/
theorem runAsync_dropped (fuel : Nat) (cbs : List (TasqCallback T E))
    (onD : Option (TasqDoneCallback T E)) (onE : Option (TasqErrorCallback T E))
    (s : TasqState T) (hrun : s.running = true) (hblk : s.blocking = true) :
    runAsync fuel cbs onD onE s = some ({ s with callbackIndex := 0 }, none, []) := by
  simp [runAsync, hrun, hblk]

/-- An accepted call (no run active) executes the run body on the state with
the stage cursor reset. -/
theorem runAsync_accepted (fuel : Nat) (cbs : List (TasqCallback T E))
    (onD : Option (TasqDoneCallback T E)) (onE : Option (TasqErrorCallback T E))
    (s : TasqState T) (hrun : s.running = false) :
    runAsync fuel cbs onD onE s = runBody fuel cbs onD onE { s with callbackIndex := 0 } := by
  simp [runAsync, hrun]

/-- `finish` never touches the run counter, the running flag or the stage
cursor: its only state effect is the handler's operations. -/
theorem finish_ctl (onD : Option (TasqDoneCallback T E))
    (onE : Option (TasqErrorCallback T E)) (dR : TasqDoneResult T)
    (eR : TasqErrorResult T E) (dE : Bool) (s : TasqState T) :
    ((finish onD onE dR eR dE s).1).nth = s.nth ∧
    ((finish onD onE dR eR dE s).1).running = s.running := by
  unfold finish
  split
  · cases onE with
    | none => exact ⟨rfl, rfl⟩
    | some h => exact ⟨(applyOps_ctl _ _).2.2.1, (applyOps_ctl _ _).2.1⟩
  · cases onD with
    | none => exact ⟨rfl, rfl⟩
    | some h => exact ⟨(applyOps_ctl _ _).2.2.1, (applyOps_ctl _ _).2.1⟩

/-- The run payload built by `finally`: the captured items are exactly the
backlog at finalization, the run number is the one assigned at activation, and
the `error` property is set only on the error path. -/
theorem finalize_runResult (onD : Option (TasqDoneCallback T E))
    (onE : Option (TasqErrorCallback T E)) (nthv : Nat) (err : Option E)
    (dE : Bool) (s : TasqState T) :
    (finalize onD onE nthv err dE s).2.1 =
      { nth := nthv, items := s.items, error := if dE then err else none } := rfl

/-- `finally` resets the stored run counter to 0. -/
theorem finalize_nth (onD : Option (TasqDoneCallback T E))
    (onE : Option (TasqErrorCallback T E)) (nthv : Nat) (err : Option E)
    (dE : Bool) (s : TasqState T) :
    ((finalize onD onE nthv err dE s).1).nth = 0 := by
  unfold finalize
  dsimp only
  rw [(finish_ctl _ _ _ _ _ _).1, (_clear_ctl _).2.2.1]

end Tasq

/-! ### Concrete callbacks used by counterexamples and witnesses -/

/-- Stage callback that performs no operations and returns nothing. -/
def exNoop : TasqCallback Nat Nat := fun _ _ _ => ([], Except.ok none)

/-- Stage callback that always returns `{ break: true }`. -/
def exBreak : TasqCallback Nat Nat := fun _ _ _ => ([], Except.ok (some { brk := true }))

/-- Stage callback that always throws `7`. -/
def exThrow7 : TasqCallback Nat Nat := fun _ _ _ => ([], Except.error 7)

/-- Stage callback that always throws `3`. -/
def exThrow3 : TasqCallback Nat Nat := fun _ _ _ => ([], Except.error 3)

/-- Stage callback that clears the backlog and returns nothing. -/
def clearingCb (T E : Type) : TasqCallback T E := fun _ _ _ => ([TasqOp.clear], Except.ok none)

/-- Done callback that does nothing. -/
def exDoneNop : TasqDoneCallback Nat Nat := fun _ _ => ([], none)

/-- Done callback that throws `42`. -/
def exDoneThrow : TasqDoneCallback Nat Nat := fun _ _ => ([], some 42)

/-- Error callback that does nothing. -/
def exErrNop : TasqErrorCallback Nat Nat := fun _ _ => ([], none)

/-! ### Claim theorems -/

/-- C6: in blocking mode, a `run`/`runAsync` call made while a run is active is
dropped: it resolves immediately with no result, emits no events at all (so no
second done/error callback fires and no item is processed again), and its only
state effect is resetting the stage cursor to 0. -/
theorem c6_blocking_reentrancy {T E : Type} (fuel : Nat) (cbs : List (TasqCallback T E))
    (onD : Option (TasqDoneCallback T E)) (onE : Option (TasqErrorCallback T E))
    (s : TasqState T) (hrun : s.running = true) (hblk : s.blocking = true) :
    Tasq.runAsync fuel cbs onD onE s = some ({ s with callbackIndex := 0 }, none, []) ∧
    Tasq.run fuel cbs onD onE s = some ({ s with callbackIndex := 0 }, []) := by
  refine ⟨Tasq.runAsync_dropped fuel cbs onD onE s hrun hblk, ?_⟩
  simp [Tasq.run, Tasq.runAsync_dropped fuel cbs onD onE s hrun hblk]

/-- Witness for C6 at a concrete blocked state. -/
theorem c6_blocking_reentrancy_witness :
    Tasq.runAsync 3 [exBreak] (some exDoneNop) none
      ({ running := true, callbackIndex := 5, items := [9] } : TasqState Nat) =
      some ({ running := true, items := [9] }, none, []) ∧
    Tasq.run 3 [exBreak] (some exDoneNop) none
      ({ running := true, callbackIndex := 5, items := [9] } : TasqState Nat) =
      some ({ running := true, items := [9] }, []) :=
  c6_blocking_reentrancy 3 [exBreak] (some exDoneNop) none _ rfl rfl

/-- C7: `run`/`runAsync` reset the stage cursor to 0 before the blocking guard:
the call's outcome is independent of the incoming stage cursor, and even a
dropped attempt leaves the stage cursor at 0. -/
theorem c7_stage_cursor_reset {T E : Type} (fuel : Nat) (cbs : List (TasqCallback T E))
    (onD : Option (TasqDoneCallback T E)) (onE : Option (TasqErrorCallback T E))
    (s : TasqState T) (c : Nat) :
    Tasq.runAsync fuel cbs onD onE { s with callbackIndex := c } =
      Tasq.runAsync fuel cbs onD onE s ∧
    Tasq.run fuel cbs onD onE { s with callbackIndex := c } =
      Tasq.run fuel cbs onD onE s ∧
    (s.running = true → s.blocking = true →
      ∃ s', Tasq.runAsync fuel cbs onD onE s = some (s', none, []) ∧ s'.callbackIndex = 0) := by
  refine ⟨rfl, rfl, fun hrun hblk => ?_⟩
  exact ⟨{ s with callbackIndex := 0 }, Tasq.runAsync_dropped fuel cbs onD onE s hrun hblk, rfl⟩

/-- Witness for C7 at a concrete state with a nonzero stage cursor. -/
theorem c7_stage_cursor_reset_witness :
    Tasq.runAsync 2 [exBreak] (some exDoneNop) none
      ({ items := [4], running := true, callbackIndex := 7 } : TasqState Nat) =
      Tasq.runAsync 2 [exBreak] (some exDoneNop) none
        ({ items := [4], running := true } : TasqState Nat) ∧
    (∃ s', Tasq.runAsync 2 [exBreak] (some exDoneNop) none
        ({ items := [4], running := true } : TasqState Nat) = some (s', none, []) ∧
      s'.callbackIndex = 0) :=
  ⟨(c7_stage_cursor_reset 2 [exBreak] (some exDoneNop) none
      { items := [4], running := true } 7).1,
   (c7_stage_cursor_reset 2 [exBreak] (some exDoneNop) none
      { items := [4], running := true } 7).2.2 rfl rfl⟩

/-- C3 counterexample: run numbers are not monotonically increasing across
sequential runs.  A fresh engine's first (empty) accepted run is numbered 1 and
finalizes back to the default state (`finally` resets the stored counter to 0),
so the second accepted run — shown by chaining `runAsync` on the returned
state — is numbered 1 again: not strictly greater than the first run's number. -/
theorem c3_counterexample :
    Tasq.runAsync 1 [] (some exDoneNop) none ({} : TasqState Nat) =
      some ({}, some { nth := 1, items := [], error := none },
        [Event.doneCall { nth := 1, items := [] }]) ∧
    (Tasq.runAsync 1 [] (some exDoneNop) none ({} : TasqState Nat)).bind
        (fun o => Tasq.runAsync 1 [] (some exDoneNop) none o.1) =
      some ({}, some { nth := 1, items := [], error := none },
        [Event.doneCall { nth := 1, items := [] }]) ∧
    ¬ (1 : Nat) > 1 := ⟨rfl, rfl, by omega⟩

/-- C3 (amended): each accepted run is numbered one more than the stored
counter, so run numbers strictly increase among runs accepted since the last
finalization; but finalization resets the stored counter to 0 (so numbering
restarts at 1 after every completed run), and a dropped attempt leaves the
counter unchanged and receives no number. -/
theorem c3_run_counter {T E : Type} (fuel : Nat) (cbs : List (TasqCallback T E))
    (onD : Option (TasqDoneCallback T E)) (onE : Option (TasqErrorCallback T E))
    (s s3 : TasqState T) (res : Option (TasqRunResult T E)) (tr : List (Event T E))
    (h : Tasq.runAsync fuel cbs onD onE s = some (s3, res, tr)) :
    (s.running = true → s.blocking = true → res = none ∧ s3.nth = s.nth) ∧
    (s.running = false → (∃ rr, res = some rr ∧ rr.nth = s.nth + 1) ∧ s3.nth = 0) := by
  constructor
  · intro hrun hblk
    rw [Tasq.runAsync_dropped fuel cbs onD onE s hrun hblk] at h
    simp only [Option.some.injEq, Prod.mk.injEq] at h
    obtain ⟨rfl, rfl, rfl⟩ := h
    exact ⟨rfl, rfl⟩
  · intro hrun
    rw [Tasq.runAsync_accepted fuel cbs onD onE s hrun] at h
    simp only [Tasq.runBody] at h
    split at h
    · exact Option.noConfusion h
    case h_2 s2 r2 evs hloop =>
      simp only [Option.some.injEq, Prod.mk.injEq] at h
      obtain ⟨rfl, rfl, rfl⟩ := h
      refine ⟨⟨_, rfl, ?_⟩, Tasq.finalize_nth _ _ _ _ _ _⟩
      rw [Tasq.finalize_runResult]
    case h_3 s2 e evs hloop =>
      simp only [Option.some.injEq, Prod.mk.injEq] at h
      obtain ⟨rfl, rfl, rfl⟩ := h
      refine ⟨⟨_, rfl, ?_⟩, Tasq.finalize_nth _ _ _ _ _ _⟩
      rw [Tasq.finalize_runResult]

/-- Witness for C3 (amended) at a concrete accepted run. -/
theorem c3_run_counter_witness :
    (∃ rr, (some ({ nth := 1, items := [], error := none } : TasqRunResult Nat Nat) = some rr ∧
      rr.nth = ({} : TasqState Nat).nth + 1)) ∧ ({} : TasqState Nat).nth = 0 :=
  (c3_run_counter 1 [] (some exDoneNop) none {} {}
    (some { nth := 1, items := [], error := none })
    [Event.doneCall { nth := 1, items := [] }] rfl).2 rfl

/-- C1: behaviour at the failing input.  With backlog `[1]`, a single stage
throwing `7` and an error callback registered, the engine fires the error
callback exactly once and the done callback not at all — but the payload's
`error` property is `none`: `finally` in this variant never assigns
`errorResult.error`, so the thrown exception is not passed to the error
callback (only the value resolved by `runAsync` carries `some 7`). -/
theorem c1_error_not_passed :
    Tasq.runAsync 5 [exThrow7] none (some exErrNop) ({ items := [1] } : TasqState Nat) =
      some ({ callbackIndex := 1 },
        some { nth := 1, items := [1], error := some 7 },
        [Event.stage 0 1 (some 1) (Except.error 7),
         Event.errorCall { nth := 1, items := [1], error := none, index := 0, callbackIndex := 1 }]) ∧
    Tasq.countError (T := Nat) (E := Nat)
      [Event.stage 0 1 (some 1) (Except.error 7),
       Event.errorCall { nth := 1, items := [1], error := none, index := 0, callbackIndex := 1 }] = 1 ∧
    Tasq.countDone (T := Nat) (E := Nat)
      [Event.stage 0 1 (some 1) (Except.error 7),
       Event.errorCall { nth := 1, items := [1], error := none, index := 0, callbackIndex := 1 }] = 0 ∧
    TasqErrorResult.error
      ({ nth := 1, items := [1], error := none, index := 0, callbackIndex := 1 } :
        TasqErrorResult Nat Nat) = none :=
  ⟨rfl, rfl, rfl, rfl⟩

/-- C2 counterexample: with backlog `[1, 2]` and a single stage that returns
`{ break: true }` on every invocation, the first invocation (item 1) signals
break, yet item 2 is still fed to stage 0 — the inner stage-0 loop does not
consult the break flag, so the trace holds two stage invocations, not one. -/
theorem c2_counterexample :
    Tasq.runAsync 10 [exBreak] (some exDoneNop) none ({ items := [1, 2] } : TasqState Nat) =
      some ({ callbackIndex := 1 },
        some { nth := 1, items := [1, 2], error := none },
        [Event.stage 0 1 (some 1) (Except.ok (some { data := none, brk := true })),
         Event.stage 0 1 (some 2) (Except.ok (some { data := none, brk := true })),
         Event.doneCall { nth := 1, items := [1, 2] }]) ∧
    Tasq.countStage (T := Nat) (E := Nat)
      [Event.stage 0 1 (some 1) (Except.ok (some { data := none, brk := true })),
       Event.stage 0 1 (some 2) (Except.ok (some { data := none, brk := true })),
       Event.doneCall { nth := 1, items := [1, 2] }] = 2 :=
  ⟨rfl, rfl⟩

/-- C4 counterexample: with backlog `[5]` and a single stage throwing `3`, the
drain loop stops with the backlog cursor at 1 and the stage cursor at 1 (the
executing stage was stage 0), yet the error callback's payload carries
`index = 0` (cursor minus one) and `callbackIndex = 1` (executing stage plus
one) — neither field equals what the claim says is delivered. -/
theorem c4_counterexample :
    Tasq.runAsync 5 [exThrow3] none (some exErrNop) ({ items := [5] } : TasqState Nat) =
      some ({ callbackIndex := 1 },
        some { nth := 1, items := [5], error := some 3 },
        [Event.stage 0 1 (some 5) (Except.error 3),
         Event.errorCall { nth := 1, items := [5], error := none, index := 0, callbackIndex := 1 }]) ∧
    Tasq.runLoop [exThrow3] 1 5 ({ brk := false } : TasqCallbackResult Nat)
        ({ nth := 1, running := true, items := [5] } : TasqState Nat) =
      some ({ nth := 1, index := 1, callbackIndex := 1, running := true,
              current := some 5, items := [5] },
        Except.error 3, [Event.stage 0 1 (some 5) (Except.error 3)]) ∧
    (0 : Int) ≠ ((1 : Nat) : Int) ∧
    (1 : Nat) ≠ 0 :=
  ⟨rfl, rfl, by decide, by decide⟩

/-- C2 (amended): a break in the working result stops the outer loop before any
further stage is selected; but stage 0's inner drain does not consult the break
flag — with an operation-free, non-throwing stage callback it feeds every
remaining backlog item to stage 0 whatever the callback returns (only the last
stage-0 result decides whether later stages run); and at finalization the whole
backlog — polled or not — is captured into the callback payload and removed. -/
theorem c2_break_semantics {T E : Type} :
    (∀ (cbs : List (TasqCallback T E)) (nthv fuel : Nat) (r : TasqCallbackResult T)
        (s : TasqState T), r.brk = true →
      Tasq.runLoop cbs nthv fuel r s = some (s, Except.ok r, [])) ∧
    (∀ (cb : TasqCallback T E) (nthv fuel : Nat) (r : TasqCallbackResult T) (s : TasqState T),
      Tasq.OpFree cb → Tasq.NoThrow cb → s.items.length - s.index ≤ fuel →
      ∃ s2 r2 evs, Tasq.drain0 cb nthv fuel r s = some (s2, Except.ok r2, evs) ∧
        Tasq.countStage evs = s.items.length - s.index ∧ s2.items = s.items) ∧
    (∀ s : TasqState T, (Tasq._clear s).2 = s.items ∧ ((Tasq._clear s).1).items = []) ∧
    (∀ (onD : Option (TasqDoneCallback T E)) (onE : Option (TasqErrorCallback T E))
        (nthv : Nat) (err : Option E) (dE : Bool) (s : TasqState T),
      (Tasq.finalize onD onE nthv err dE s).2.1.items = s.items) := by
  refine ⟨fun cbs nthv fuel r s hbrk => Tasq.runLoop_brk cbs nthv fuel r s hbrk,
    fun cb nthv fuel r s hO hN hfuel => ?_, fun s => ?_, fun onD onE nthv err dE s => ?_⟩
  · obtain ⟨s2, r2, evs, hdrain, hcount, hitems, _⟩ :=
      Tasq.drain0_opFree_count cb nthv hO hN fuel r s hfuel
    exact ⟨s2, r2, evs, hdrain, hcount, hitems⟩
  · refine ⟨rfl, ?_⟩
    simp only [Tasq._clear]
    split <;> rfl
  · rw [Tasq.finalize_runResult]

/-- Witness for C2 (amended) at concrete inputs: an already-broken working
result, a two-item backlog drained by an operation-free callback, and a
concrete finalization. -/
theorem c2_break_semantics_witness :
    Tasq.runLoop ([] : List (TasqCallback Nat Nat)) 1 0 { brk := true } {} =
      some ({}, Except.ok { brk := true }, []) ∧
    (∃ s2 r2 evs, Tasq.drain0 exNoop 1 2 {} ({ items := [8, 9] } : TasqState Nat) =
      some (s2, Except.ok r2, evs) ∧ Tasq.countStage evs = 2 ∧ s2.items = [8, 9]) ∧
    ((Tasq._clear ({ items := [8, 9] } : TasqState Nat)).2 = [8, 9] ∧
      ((Tasq._clear ({ items := [8, 9] } : TasqState Nat)).1).items = []) ∧
    (Tasq.finalize (T := Nat) (E := Nat) (some exDoneNop) none 1 none false
      { items := [8, 9] }).2.1.items = [8, 9] :=
  ⟨(c2_break_semantics (T := Nat) (E := Nat)).1 [] 1 0 { brk := true } {} rfl,
   (c2_break_semantics (T := Nat) (E := Nat)).2.1 exNoop 1 2 {} { items := [8, 9] }
     (fun _ _ _ => rfl) (fun _ _ _ => ⟨none, rfl⟩) (by decide),
   (c2_break_semantics (T := Nat) (E := Nat)).2.2.1 { items := [8, 9] },
   (c2_break_semantics (T := Nat) (E := Nat)).2.2.2 (some exDoneNop) none 1 none false { items := [8, 9] }⟩

namespace Tasq

variable {T E : Type}

/-- An accepted call (blocking guard false) executes the run body on the state
with the stage cursor reset. -/
theorem runAsync_not_blocked (fuel : Nat) (cbs : List (TasqCallback T E))
    (onD : Option (TasqDoneCallback T E)) (onE : Option (TasqErrorCallback T E))
    (s : TasqState T) (hguard : (s.running && s.blocking) = false) :
    runAsync fuel cbs onD onE s = runBody fuel cbs onD onE { s with callbackIndex := 0 } := by
  simp [runAsync, hguard]

/-- Event accounting for `finish`: it emits no stage events, the done-path
emits no error-callback event, and the error-path emits no done-callback
event. -/
theorem finish_counts (onD : Option (TasqDoneCallback T E))
    (onE : Option (TasqErrorCallback T E)) (dR : TasqDoneResult T)
    (eR : TasqErrorResult T E) (dE : Bool) (s : TasqState T) :
    countStage (finish onD onE dR eR dE s).2 = 0 ∧
    (dE = false → countError (finish onD onE dR eR dE s).2 = 0) ∧
    (dE = true → countDone (finish onD onE dR eR dE s).2 = 0) := by
  unfold finish
  split
  case isTrue hdE =>
    cases onE with
    | none => simp [countStage, countDone, countError, hdE]
    | some h =>
      refine ⟨?_, fun hfalse => by simp [hdE] at hfalse, fun _ => ?_⟩
      · simp only [countStage]
        rw [List.append_eq, countStage_append, applyOps_countStage]
        split <;> simp [countStage]
      · simp only [countDone]
        rw [List.append_eq, countDone_append, applyOps_countDone]
        split <;> simp [countDone]
  case isFalse hdE =>
    cases onD with
    | none => simp [countStage, countDone, countError]
    | some h =>
      refine ⟨?_, fun _ => ?_, fun htrue => by simp [htrue] at hdE⟩
      · simp only [countStage]
        rw [List.append_eq, countStage_append, applyOps_countStage]
        split <;> simp [countStage]
      · simp only [countError]
        rw [List.append_eq, countError_append, applyOps_countError]
        split <;> simp [countError]

end Tasq

/-- C8: a run triggered with the backlog cursor at or past the backlog length
performs zero stage invocations and never reaches the error path (the working
result is initialized to break); in particular a fresh engine run with no items
and no stages invokes the done callback exactly once with run number 1 and an
empty item list, and that is the entire trace. -/
theorem c8_empty_run {T E : Type} :
    (∀ d : TasqDoneCallback T E, (∀ dr st, d dr st = ([], none)) →
      Tasq.runAsync 0 [] (some d) none ({} : TasqState T) =
        some ({}, some { nth := 1, items := [], error := none },
          [Event.doneCall { nth := 1, items := [] }])) ∧
    (∀ (fuel : Nat) (cbs : List (TasqCallback T E)) (onD : Option (TasqDoneCallback T E))
        (onE : Option (TasqErrorCallback T E)) (s s3 : TasqState T)
        (res : Option (TasqRunResult T E)) (tr : List (Event T E)),
      s.items.length ≤ s.index →
      Tasq.runAsync fuel cbs onD onE s = some (s3, res, tr) →
      Tasq.countStage tr = 0 ∧ Tasq.countError tr = 0) := by
  constructor
  · intro d hd
    simp only [Tasq.runAsync, Tasq.runBody, Tasq.runLoop, Tasq.finalize, Tasq.finish,
      Tasq._clear, Tasq.applyOps, hd]
    rfl
  · intro fuel cbs onD onE s s3 res tr hidx h
    cases hguard : s.running && s.blocking with
    | true =>
      obtain ⟨hrun, hblk⟩ := Bool.and_eq_true_iff.mp hguard
      rw [Tasq.runAsync_dropped fuel cbs onD onE s hrun hblk] at h
      simp only [Option.some.injEq, Prod.mk.injEq] at h
      obtain ⟨rfl, rfl, rfl⟩ := h
      exact ⟨rfl, rfl⟩
    | false =>
      rw [Tasq.runAsync_not_blocked fuel cbs onD onE s hguard] at h
      simp only [Tasq.runBody] at h
      rw [Tasq.runLoop_brk cbs _ fuel _ _ (by simpa using hidx)] at h
      simp only [Option.some.injEq, Prod.mk.injEq] at h
      obtain ⟨rfl, rfl, rfl⟩ := h
      refine ⟨?_, ?_⟩
      · simpa using (Tasq.finish_counts _ _ _ _ _ _).1
      · simpa using (Tasq.finish_counts _ _ _ _ _ _).2.1 rfl

/-- Witness for C8: a fresh empty run, and a run whose cursor is past a
non-empty backlog. -/
theorem c8_empty_run_witness :
    Tasq.runAsync 0 [] (some exDoneNop) none ({} : TasqState Nat) =
      some ({}, some { nth := 1, items := [], error := none },
        [Event.doneCall { nth := 1, items := [] }]) ∧
    (Tasq.countStage (T := Nat) (E := Nat) [Event.doneCall { nth := 1, items := [1, 2] }] = 0 ∧
     Tasq.countError (T := Nat) (E := Nat) [Event.doneCall { nth := 1, items := [1, 2] }] = 0) :=
  ⟨(c8_empty_run (T := Nat) (E := Nat)).1 exDoneNop (fun _ _ => rfl),
   (c8_empty_run (T := Nat) (E := Nat)).2 2 [exBreak] (some exDoneNop) none
     { index := 5, items := [1, 2] } {} (some { nth := 1, items := [1, 2], error := none })
     [Event.doneCall { nth := 1, items := [1, 2] }] (by decide) rfl⟩

/-- C10: the item list delivered to the done/error callback is exactly the
backlog contents at finalization; a `clear()` issued while a run is active
resets the backlog cursor to 0, removes every queued item, and leaves the
current-item slot untouched; consequently a run whose stage clears the backlog
delivers an empty item list — the already-processed first item and the
un-polled rest both disappear from the payload. -/
theorem c10_clear_mid_run {T E : Type} :
    (∀ s : TasqState T, s.running = true →
      Tasq._clear s = ({ s with index := 0, items := [] }, s.items) ∧
      ((Tasq._clear s).1).current = s.current ∧ ((Tasq._clear s).1).index = 0) ∧
    (∀ (onD : Option (TasqDoneCallback T E)) (onE : Option (TasqErrorCallback T E))
        (nthv : Nat) (err : Option E) (dE : Bool) (s : TasqState T),
      (Tasq.finalize onD onE nthv err dE s).2.1.items = s.items) ∧
    (∀ (x : T) (xs : List T) (d : TasqDoneCallback T E), (∀ dr st, d dr st = ([], none)) →
      Tasq.runAsync 2 [clearingCb T E] (some d) none { items := x :: xs } =
        some ({ callbackIndex := 1 }, some { nth := 1, items := [], error := none },
          [Event.stage 0 1 (some x) (Except.ok none), Event.cleared (x :: xs),
           Event.doneCall { nth := 1, items := [] }])) := by
  refine ⟨fun s hrun => ?_, fun onD onE nthv err dE s => Tasq.finalize_runResult .. ▸ rfl,
    fun x xs d hd => ?_⟩
  · constructor
    · simp [Tasq._clear, hrun]
    · constructor
      · simp [Tasq._clear, hrun]
      · simp [Tasq._clear, hrun]
  · have hcb : ∀ (n : Nat) (dv : Option T) (st : TasqState T),
        clearingCb T E n dv st = ([TasqOp.clear], Except.ok none) := fun _ _ _ => rfl
    simp [Tasq.runAsync, Tasq.runBody, Tasq.runLoop, Tasq.drain0, hcb,
      Tasq.applyOps, Tasq._clear, Tasq.finalize, Tasq.finish, hd, Tasq.add]

/-- Witness for C10 at a concrete running state and a concrete clearing run. -/
theorem c10_clear_mid_run_witness :
    (Tasq._clear ({ running := true, current := some 9, items := [1, 2], index := 1 } :
        TasqState Nat) =
      ({ running := true, current := some 9, items := [], index := 0 }, [1, 2]) ∧
      ((Tasq._clear ({ running := true, current := some 9, items := [1, 2], index := 1 } :
        TasqState Nat)).1).current = some 9 ∧
      ((Tasq._clear ({ running := true, current := some 9, items := [1, 2], index := 1 } :
        TasqState Nat)).1).index = 0) ∧
    Tasq.runAsync 2 [clearingCb Nat Nat] (some exDoneNop) none
        ({ items := [1, 2, 3] } : TasqState Nat) =
      some ({ callbackIndex := 1 }, some { nth := 1, items := [], error := none },
        [Event.stage 0 1 (some 1) (Except.ok none), Event.cleared [1, 2, 3],
         Event.doneCall { nth := 1, items := [] }]) :=
  ⟨(c10_clear_mid_run (T := Nat) (E := Nat)).1
      { running := true, current := some 9, items := [1, 2], index := 1 } rfl,
   (c10_clear_mid_run (T := Nat) (E := Nat)).2.2 1 [2, 3] exDoneNop (fun _ _ => rfl)⟩

namespace Tasq

variable {T E : Type}

/-- Trace and state of `finish` on the done path with an operation-free done
callback: exactly the done-callback invocation, followed by a log event only if
the callback threw; the state is untouched. -/
theorem finish_done_opFree (onE : Option (TasqErrorCallback T E))
    (dR : TasqDoneResult T) (eR : TasqErrorResult T E) (s : TasqState T)
    (d : TasqDoneCallback T E) (hd : (d dR s).1 = []) :
    ∃ logEvs, (finish (some d) onE dR eR false s).2 = Event.doneCall dR :: logEvs ∧
      addsOf logEvs = [] ∧ countDone logEvs = 0 ∧ countError logEvs = 0 ∧
      (finish (some d) onE dR eR false s).1 = s := by
  cases hex : (d dR s).2 with
  | none =>
    refine ⟨[], ?_, rfl, rfl, rfl, ?_⟩
    · simp [finish, hd, hex, applyOps]
    · simp [finish, hd, hex, applyOps]
  | some ex =>
    refine ⟨[Event.log "done" ex], ?_, rfl, rfl, rfl, ?_⟩
    · simp [finish, hd, hex, applyOps]
    · simp [finish, hd, hex, applyOps]

/-- Trace and state of `finally` on the done path with an operation-free done
callback. -/
theorem finalize_done_opFree (onE : Option (TasqErrorCallback T E)) (nthv : Nat)
    (s : TasqState T) (d : TasqDoneCallback T E) (hd : ∀ dr st, (d dr st).1 = []) :
    ∃ logEvs : List (Event T E),
      (finalize (some d) onE nthv none false s).2.2 =
        Event.doneCall { nth := nthv, items := s.items } :: logEvs ∧
      addsOf logEvs = [] ∧ countDone logEvs = 0 ∧ countError logEvs = 0 ∧
      ((finalize (some d) onE nthv none false s).1).items = [] := by
  unfold finalize
  dsimp only
  obtain ⟨logEvs, htr, hadds, hld, hle, hstate⟩ :=
    finish_done_opFree onE { nth := nthv, items := (_clear { s with nth := 0, running := false }).2 }
      { nth := nthv, items := (_clear { s with nth := 0, running := false }).2, error := none,
        index := (s.index : Int) - 1, callbackIndex := s.callbackIndex }
      (_clear { s with nth := 0, running := false }).1 d (hd _ _)
    
  refine ⟨logEvs, ?_, hadds, hld, hle, ?_⟩
  · rw [htr]
    rfl
  · rw [hstate]
    simp only [_clear]
    split <;> rfl

end Tasq

/-- C5: for a run accepted on an idle engine whose stage callbacks only ever
append to the backlog and never throw, the done callback receives exactly the
initial backlog followed by every item appended during the run, in insertion
order (each appended item exactly once); the done callback fires exactly once,
the error callback never, and the backlog is empty once the run has finalized. -/
theorem c5_done_items {T E : Type} (fuel : Nat) (cbs : List (TasqCallback T E))
    (onE : Option (TasqErrorCallback T E)) (d : TasqDoneCallback T E) (s s3 : TasqState T)
    (res : Option (TasqRunResult T E)) (tr : List (Event T E))
    (hrun : s.running = false)
    (hcb : ∀ cb ∈ cbs, Tasq.AppendOnly cb ∧ Tasq.NoThrow cb)
    (hd : ∀ dr st, (d dr st).1 = [])
    (h : Tasq.runAsync fuel cbs (some d) onE s = some (s3, res, tr)) :
    ∃ pre post dr, tr = pre ++ Event.doneCall dr :: post ∧
      dr.items = s.items ++ Tasq.addsOf tr ∧ dr.nth = s.nth + 1 ∧
      s3.items = [] ∧ res = some { nth := s.nth + 1, items := dr.items, error := none } ∧
      Tasq.countDone tr = 1 ∧ Tasq.countError tr = 0 := by
  rw [Tasq.runAsync_accepted fuel cbs (some d) onE s hrun] at h
  simp only [Tasq.runBody] at h
  split at h
  · exact Option.noConfusion h
  case h_2 s2 r2 evs hloop =>
    simp only [Option.some.injEq, Prod.mk.injEq] at h
    obtain ⟨rfl, rfl, rfl⟩ := h
    obtain ⟨-, hitems, hcd, hce⟩ := Tasq.runLoop_ok_addOnly cbs _ hcb fuel _ _ _ _ _ hloop
    obtain ⟨logEvs, htr, hadds, hld, hle, hstate⟩ := Tasq.finalize_done_opFree onE _ s2 d hd
    rw [htr, Tasq.finalize_runResult]
    refine ⟨evs, logEvs, { nth := _, items := s2.items }, rfl, ?_, rfl, hstate, rfl, ?_, ?_⟩
    · rw [Tasq.addsOf_append, hitems]
      simp [Tasq.addsOf, hadds]
    · rw [Tasq.countDone_append, hcd]
      simp [Tasq.countDone, hld]
    · rw [Tasq.countError_append, hce]
      simp [Tasq.countError, hle]
  case h_3 s2 e evs hloop =>
    obtain ⟨⟨r2, hr2⟩, -, -, -⟩ := Tasq.runLoop_ok_addOnly cbs _ hcb fuel _ _ _ _ _ hloop
    exact Except.noConfusion hr2

/-- Witness for C5 at a concrete run: backlog `[4]`, one operation-free stage. -/
theorem c5_done_items_witness :
    ∃ pre post dr,
      ([Event.stage 0 1 (some 4) (Except.ok none), Event.doneCall { nth := 1, items := [4] }] :
          List (Event Nat Nat)) = pre ++ Event.doneCall dr :: post ∧
      dr.items = [4] ++ Tasq.addsOf (T := Nat) (E := Nat) [Event.stage 0 1 (some 4) (Except.ok none),
        Event.doneCall { nth := 1, items := [4] }] ∧
      dr.nth = 1 ∧
      ({ callbackIndex := 1 } : TasqState Nat).items = [] ∧
      (some { nth := 1, items := [4], error := none } : Option (TasqRunResult Nat Nat)) =
        some { nth := 1, items := dr.items, error := none } ∧
      Tasq.countDone (T := Nat) (E := Nat) [Event.stage 0 1 (some 4) (Except.ok none),
        Event.doneCall { nth := 1, items := [4] }] = 1 ∧
      Tasq.countError (T := Nat) (E := Nat) [Event.stage 0 1 (some 4) (Except.ok none),
        Event.doneCall { nth := 1, items := [4] }] = 0 :=
  c5_done_items 3 [exNoop] none exDoneNop { items := [4] } { callbackIndex := 1 }
    (some { nth := 1, items := [4], error := none })
    [Event.stage 0 1 (some 4) (Except.ok none), Event.doneCall { nth := 1, items := [4] }]
    rfl
    (by
      intro cb hcb
      simp only [List.mem_singleton] at hcb
      subst hcb
      exact ⟨fun n dv st op hop => absurd hop (List.not_mem_nil op),
        fun n dv st => ⟨none, rfl⟩⟩)
    (fun _ _ => rfl) rfl

/-- C4 (amended): when the drain loop of an accepted run ends with a stage
throwing `e`, the error callback is invoked with the run number, the captured
items (the backlog at finalization), `index` equal to the backlog cursor at
finalization minus one, and `callbackIndex` equal to the index of the throwing
stage plus one (the stage cursor had already been advanced past the executing
stage); the payload's `error` property is `none`. -/
theorem c4_error_context {T E : Type} (fuel : Nat) (cbs : List (TasqCallback T E))
    (onD : Option (TasqDoneCallback T E)) (hE : TasqErrorCallback T E) (s s3 : TasqState T)
    (rr : TasqRunResult T E) (tr : List (Event T E)) (e : E)
    (hrun : s.running = false)
    (hEnop : ∀ er st, hE er st = ([], none))
    (h : Tasq.runAsync fuel cbs onD (some hE) s = some (s3, some rr, tr))
    (herr : rr.error = some e) :
    ∃ s2 evs pre k dv opEvs,
      Tasq.runLoop cbs (s.nth + 1) fuel
          ({ brk := decide (s.items.length ≤ s.index) } : TasqCallbackResult T)
          { s with callbackIndex := 0, nth := s.nth + 1, running := true } =
        some (s2, Except.error e, evs) ∧
      evs = pre ++ Event.stage k (s.nth + 1) dv (Except.error e) :: opEvs ∧
      Tasq.countStage opEvs = 0 ∧
      s2.callbackIndex = k + 1 ∧
      tr = evs ++
        [Event.errorCall
          { nth := s.nth + 1, items := s2.items, error := none,
            index := (s2.index : Int) - 1, callbackIndex := s2.callbackIndex }] ∧
      rr = { nth := s.nth + 1, items := s2.items, error := some e } := by
  rw [Tasq.runAsync_accepted fuel cbs onD (some hE) s hrun] at h
  simp only [Tasq.runBody] at h
  split at h
  · exact Option.noConfusion h
  case h_2 s2 r2 evs hloop =>
    simp only [Option.some.injEq, Prod.mk.injEq] at h
    obtain ⟨rfl, hres, rfl⟩ := h
    rw [Tasq.finalize_runResult] at hres
    subst hres
    simp at herr
  case h_3 s2 e' evs hloop =>
    simp only [Option.some.injEq, Prod.mk.injEq] at h
    obtain ⟨rfl, hres, rfl⟩ := h
    rw [Tasq.finalize_runResult] at hres
    subst hres
    simp only [if_true] at herr
    obtain rfl : e' = e := by
      simpa using herr
    obtain ⟨pre, k, dv, opEvs, hshape, hcs, hcb⟩ :=
      Tasq.runLoop_error_shape cbs _ fuel _ _ _ _ _ hloop
    refine ⟨s2, evs, pre, k, dv, opEvs, hloop, hshape, hcs, hcb, ?_, rfl⟩
    simp only [Tasq.finalize, Tasq.finish, hEnop, Tasq.applyOps]
    rw [hcb]
    rfl

/-- Witness for C4 at the concrete failing run: backlog `[5]`, stage throwing `3`. -/
theorem c4_error_context_witness :
    ∃ s2 evs pre k dv opEvs,
      Tasq.runLoop [exThrow3] 1 5 ({ brk := false } : TasqCallbackResult Nat)
          ({ nth := 1, running := true, items := [5] } : TasqState Nat) =
        some (s2, Except.error 3, evs) ∧
      evs = pre ++ Event.stage k 1 dv (Except.error 3) :: opEvs ∧
      Tasq.countStage opEvs = 0 ∧
      s2.callbackIndex = k + 1 ∧
      ([Event.stage 0 1 (some 5) (Except.error 3),
        Event.errorCall { nth := 1, items := [5], error := none, index := 0, callbackIndex := 1 }] :
          List (Event Nat Nat)) =
        evs ++
          [Event.errorCall
            { nth := 1, items := s2.items, error := none,
              index := (s2.index : Int) - 1, callbackIndex := s2.callbackIndex }] ∧
      ({ nth := 1, items := [5], error := some 3 } : TasqRunResult Nat Nat) =
        { nth := 1, items := s2.items, error := some 3 } :=
  c4_error_context 5 [exThrow3] none exErrNop { items := [5] } { callbackIndex := 1 }
    { nth := 1, items := [5], error := some 3 }
    [Event.stage 0 1 (some 5) (Except.error 3),
     Event.errorCall { nth := 1, items := [5], error := none, index := 0, callbackIndex := 1 }]
    3 rfl (fun _ _ => rfl) rfl rfl

/-- C9: an exception thrown by the done or error callback is caught inside
`finish` and turned into a log entry tagged with the failing callback's label
(`"done"` or `"error"`); the engine state sees only the handler's operations,
and — at run level — the run still resolves with its normal result, the log
event appended to the trace. -/
theorem c9_callback_exception_caught {T E : Type} :
    (∀ (onE : Option (TasqErrorCallback T E)) (dR : TasqDoneResult T)
        (eR : TasqErrorResult T E) (s : TasqState T) (d : TasqDoneCallback T E) (ex : E),
      (d dR s).2 = some ex →
      Tasq.finish (some d) onE dR eR false s =
        ((Tasq.applyOps (T := T) (E := E) (d dR s).1 s).1,
         Event.doneCall dR :: (Tasq.applyOps (T := T) (E := E) (d dR s).1 s).2 ++
           [Event.log "done" ex])) ∧
    (∀ (onD : Option (TasqDoneCallback T E)) (dR : TasqDoneResult T)
        (eR : TasqErrorResult T E) (s : TasqState T) (hE : TasqErrorCallback T E) (ex : E),
      (hE eR s).2 = some ex →
      Tasq.finish onD (some hE) dR eR true s =
        ((Tasq.applyOps (T := T) (E := E) (hE eR s).1 s).1,
         Event.errorCall eR :: (Tasq.applyOps (T := T) (E := E) (hE eR s).1 s).2 ++
           [Event.log "error" ex])) ∧
    (∀ (fuel : Nat) (cbs : List (TasqCallback T E)) (s s3 : TasqState T)
        (res : Option (TasqRunResult T E)) (tr : List (Event T E))
        (d : TasqDoneCallback T E) (ex : E) (rr : TasqRunResult T E),
      s.running = false → (∀ dr st, d dr st = ([], some ex)) →
      Tasq.runAsync fuel cbs (some d) none s = some (s3, res, tr) →
      res = some rr → rr.error = none →
      ∃ pre dr, tr = pre ++ [Event.doneCall dr, Event.log "done" ex]) := by
  refine ⟨fun onE dR eR s d ex hthrow => ?_, fun onD dR eR s hE ex hthrow => ?_,
    fun fuel cbs s s3 res tr d ex rr hrun hd h hres hok => ?_⟩
  · simp [Tasq.finish, hthrow]
  · simp [Tasq.finish, hthrow]
  · rw [Tasq.runAsync_accepted fuel cbs (some d) none s hrun] at h
    simp only [Tasq.runBody] at h
    split at h
    · exact Option.noConfusion h
    case h_2 s2 r2 evs hloop =>
      simp only [Option.some.injEq, Prod.mk.injEq] at h
      obtain ⟨rfl, hres2, rfl⟩ := h
      refine ⟨evs, { nth := s.nth + 1, items := s2.items }, ?_⟩
      simp only [Tasq.finalize, Tasq.finish, hd, Tasq.applyOps]
      rfl
    case h_3 s2 e evs hloop =>
      simp only [Option.some.injEq, Prod.mk.injEq] at h
      obtain ⟨rfl, hres2, rfl⟩ := h
      rw [← hres2] at hres
      simp only [Option.some.injEq] at hres
      rw [← hres, Tasq.finalize_runResult] at hok
      simp at hok

/-- Witness for C9: a throwing done callback at `finish` level and at run
level. -/
theorem c9_callback_exception_caught_witness :
    Tasq.finish (some exDoneThrow) none { nth := 1, items := [] }
        { nth := 1, items := [], error := none, index := 0, callbackIndex := 0 } false
        ({} : TasqState Nat) =
      ({}, [Event.doneCall { nth := 1, items := [] }, Event.log "done" 42]) ∧
    (∃ pre dr,
      ([Event.doneCall { nth := 1, items := [] }, Event.log "done" 42] :
          List (Event Nat Nat)) = pre ++ [Event.doneCall dr, Event.log "done" 42]) :=
  ⟨(c9_callback_exception_caught (T := Nat) (E := Nat)).1 none { nth := 1, items := [] }
      { nth := 1, items := [], error := none, index := 0, callbackIndex := 0 } {}
      exDoneThrow 42 rfl,
   (c9_callback_exception_caught (T := Nat) (E := Nat)).2.2 0 [] {} {}
      (some { nth := 1, items := [], error := none })
      [Event.doneCall { nth := 1, items := [] }, Event.log "done" 42]
      exDoneThrow 42 { nth := 1, items := [], error := none }
      rfl (fun _ _ => rfl) rfl rfl rfl⟩
